import Mathlib

/-!
Verification development for the data-pipe CDC pipeline
(MongoDB change-stream source → field-mapping transform → batching upsert sink).

The Go sources embedded here are:
- pkg/source/mongodb.go  (change-event conversion, Read channel discipline, Close)
- pkg/config/config.go   (SourceConfig.GetString / SinkConfig.GetString)
- cmd/data-pipe/main.go  (wiring only)

The packages pkg/pipeline, pkg/sink and pkg/transform are referenced by the
above but their sources are not available; the corresponding definitions below
are modelled from the specification (each such definition says so in its doc
comment).

BSON documents and Go maps are embedded as association lists; Go map update
semantics ("m[k] = v") are given by first-occurrence replacement, and map
lookup by first-occurrence search, which agree with map semantics whenever
keys are unique (as they are in every Go map).
-/

set_option maxHeartbeats 1000000

namespace DataPipe

/-- A BSON value as decoded by the driver into `bson.M`: embedded documents
decode to nested `bson.M` (association lists here), arrays to slices. -/
inductive BValue where
  | str (s : String)
  | int (n : Int)
  | bool (b : Bool)
  | null
  | doc (fields : List (String × BValue))
  | arr (elems : List BValue)

/-- A BSON document / Go `map[string]interface{}` as an association list. -/
abbrev BDoc := List (String × BValue)

/-- Go map lookup `m[key]`: first binding of `key` (Go maps have unique keys). -/
def assocGet {α : Type} : List (String × α) → String → Option α
  | [], _ => none
  | (k, v) :: rest, key => if k = key then some v else assocGet rest key

/-- Go map assignment `m[key] = v`: replace the first binding of `key`,
or append a new binding when absent. -/
def rowSet {α : Type} : List (String × α) → String → α → List (String × α)
  | [], key, v => [(key, v)]
  | (k0, v0) :: rest, key, v =>
    if k0 = key then (k0, v) :: rest else (k0, v0) :: rowSet rest key v

/-- Go `for k, v := range d { r[k] = v }`: fold map assignment over `d`. -/
def mergeRow {α : Type} : List (String × α) → List (String × α) → List (String × α)
  | r, [] => r
  | r, (k, v) :: rest => mergeRow (rowSet r k v) rest

/-- Last binding of `key` in an association list (the value a fold of
assignments leaves behind). -/
def lastGet {α : Type} : List (String × α) → String → Option α
  | [], _ => none
  | (k0, v0) :: rest, key =>
    match lastGet rest key with
    | some v => some v
    | none => if key = k0 then some v0 else none

mutual
/-- Go `fmt.Sprintf("%v", v)` on a decoded BSON value: strings verbatim,
ints in decimal, documents as `map[k1:v1 k2:v2]`, arrays as `[v1 v2]`,
nil as `<nil>`. (Go prints map keys sorted; every concrete document this
file formats has at most one key, where the two orders coincide.) -/
def goFormat : BValue → String
  | .str s => s
  | .int n => toString n
  | .bool b => if b then "true" else "false"
  | .null => "<nil>"
  | .doc fields => "map[" ++ goFormatFields fields ++ "]"
  | .arr elems => "[" ++ goFormatElems elems ++ "]"

/-- Space-separated `k:v` entries of a formatted document. -/
def goFormatFields : List (String × BValue) → String
  | [] => ""
  | [(k, v)] => k ++ ":" ++ goFormat v
  | (k, v) :: rest => k ++ ":" ++ goFormat v ++ " " ++ goFormatFields rest

/-- Space-separated elements of a formatted array. -/
def goFormatElems : List BValue → String
  | [] => ""
  | [v] => goFormat v
  | v :: rest => goFormat v ++ " " ++ goFormatElems rest
end

/-- Modelled from the spec and from the uses in pkg/source/mongodb.go:
the canonical change record of pkg/pipeline/types.go (not under src/).
Field names follow the Go struct; `Data` is `nil` (`none`) or a map;
`Timestamp` abstracts the wall-clock creation time as a number. -/
structure Event where
  ID : String
  Operation : String
  Source : String
  Database : String
  Collection : String
  Data : Option BDoc
  Timestamp : Nat

/-- pkg/source/mongodb.go: the configuration fields of MongoDBSource
(the runtime `client` and `logger` fields carry no data relevant to
conversion; the client's connection state is modelled separately below). -/
structure MongoDBSource where
  uri : String
  database : String
  collection : String

/-- pkg/source/mongodb.go convertBSONToMap: copy a decoded BSON document
into a fresh Go map (`result[k] = v` for each entry). -/
def convertBSONToMap (doc : BDoc) : BDoc :=
  mergeRow [] doc

/-- The `Data` field produced by convertChangeEvent: from `fullDocument`
when present (and a document), then merged with
`updateDescription.updatedFields` when present (allocating an empty map
first if `Data` is still nil). -/
def dataOf (changeDoc : BDoc) : Option BDoc :=
  let base : Option BDoc :=
    match assocGet changeDoc "fullDocument" with
    | some (.doc d) => some (convertBSONToMap d)
    | _ => none
  match assocGet changeDoc "updateDescription" with
  | some (.doc ud) =>
    match assocGet ud "updatedFields" with
    | some (.doc uf) => some (mergeRow (base.getD []) (convertBSONToMap uf))
    | _ => base
  | _ => base

/-- pkg/source/mongodb.go convertChangeEvent: build a pipeline Event from a
decoded change-stream document. `ID` is `fmt.Sprintf("%v", changeDoc["_id"])`
when `_id` is present (zero value `""` otherwise); `Operation` is
`changeDoc["operationType"]` when it is a string (zero value `""` otherwise);
`Data` is as in `dataOf`. `now` stands for `time.Now()`. -/
def convertChangeEvent (m : MongoDBSource) (now : Nat) (changeDoc : BDoc) : Event :=
  { Source := "mongodb"
    Database := m.database
    Collection := m.collection
    Timestamp := now
    ID :=
      match assocGet changeDoc "_id" with
      | some v => goFormat v
      | none => ""
    Operation :=
      match assocGet changeDoc "operationType" with
      | some (.str s) => s
      | _ => ""
    Data := dataOf changeDoc }

/-- The mutated entity's primary key of a change-stream document: per the
MongoDB change-event format, `documentKey._id`. (The top-level `_id` of a
change document is the resume token, not the entity key.) This definition
states the spec side of claim C1; `convertChangeEvent` is the code side. -/
def entityKey (changeDoc : BDoc) : Option BValue :=
  match assocGet changeDoc "documentKey" with
  | some (.doc dk) => assocGet dk "_id"
  | _ => none

/-! ### Read: the goroutine body of MongoDBSource.Read as a channel-operation
trace. The goroutine registers `defer close(events)` then `defer close(errors)`
(so on return, errors closes first, then events), then either fails to open
the change stream (one error send, return), or loops over `stream.Next`
(each iteration sends one event, or one error on a decode failure) and sends
one final error if `stream.Err()` is non-nil after the loop ends (stream end
or context cancellation). -/

/-- One operation performed on the `events` or `errors` channel. -/
inductive ChanOp where
  | sendEvent (e : Event)
  | sendErr
  | closeEvents
  | closeErrors

/-- One successful `stream.Next` iteration: a decoded document, or a decode
failure (which sends an error and continues). -/
inductive StreamStep where
  | doc (d : BDoc)
  | decodeFail

/-- What the underlying change stream does during one Read: `watchFail`
(collection.Watch returns an error), or a run of iterations followed by the
loop ending (`finalErr` says whether `stream.Err()` was non-nil, as after a
stream invalidation; it is `false` on clean end or context cancellation). -/
inductive StreamOutcome where
  | watchFail
  | run (steps : List StreamStep) (finalErr : Bool)

/-- Channel operation performed by one loop iteration of the Read goroutine. -/
def stepOp (m : MongoDBSource) (now : Nat) : StreamStep → ChanOp
  | .doc d => .sendEvent (convertChangeEvent m now d)
  | .decodeFail => .sendErr

/-- Channel sends performed by the Read goroutine body before it returns. -/
def readBody (m : MongoDBSource) (now : Nat) : StreamOutcome → List ChanOp
  | .watchFail => [.sendErr]
  | .run steps finalErr =>
    steps.map (stepOp m now) ++ (if finalErr then [.sendErr] else [])

/-- Full channel-operation trace of one Read invocation: the body's sends,
then the deferred closes (errors first, then events, in LIFO defer order). -/
def readTrace (m : MongoDBSource) (now : Nat) (o : StreamOutcome) : List ChanOp :=
  readBody m now o ++ [ChanOp.closeErrors, ChanOp.closeEvents]

/-- An operation that delivers a value on one of the two channels. -/
def isSend : ChanOp → Bool
  | .sendEvent _ => true
  | .sendErr => true
  | _ => false

/-- The two channels close together: the trace is some deliveries followed by
the two closes, adjacent, at the very end — neither channel closes while the
other can still deliver a value. -/
def closesTogether (t : List ChanOp) : Prop :=
  ∃ p, t = p ++ [ChanOp.closeErrors, ChanOp.closeEvents] ∧ ∀ op ∈ p, isSend op = true

/-! ### Close: pkg/source/mongodb.go MongoDBSource.Close and the driver's
Disconnect. -/

/-- Connection state of the `client` field of a MongoDBSource: `noClient`
(`m.client == nil`, Connect never succeeded), `connected`, or `disconnected`
(Disconnect already ran; the code never resets `m.client` to nil). -/
inductive ClientState where
  | noClient
  | connected
  | disconnected
  deriving DecidableEq

/-- The mongo driver's documented `Client.Disconnect` behaviour (external
collaborator): disconnecting a connected client succeeds; calling Disconnect
on an already-disconnected client returns the client-is-disconnected error. -/
def disconnectClient : ClientState → Option String × ClientState
  | .connected => (none, .disconnected)
  | .disconnected => (some "client is disconnected", .disconnected)
  | .noClient => (some "client is disconnected", .noClient)

/-- pkg/source/mongodb.go Close: `if m.client != nil { return
m.client.Disconnect(...) }; return nil`. The first component is the returned
error (`none` = nil), the second the state after the call. -/
def mongoClose : ClientState → Option String × ClientState
  | .noClient => (none, .noClient)
  | .connected => disconnectClient .connected
  | .disconnected => disconnectClient .disconnected

/-! ### Transform stage. pkg/transform is not under src/; modelled from the
spec (§4.2, §8 scenarios, README field-mapping examples). -/

/-- Modelled from the spec: one field rule of the field mapper —
`{source, destination?, format?}`; a missing destination keeps the source
name. -/
structure FieldRule where
  source : String
  destination : Option String
  format : Option String

/-- Destination column name of a rule: the declared destination, or the
source name when none is declared. -/
def destName (r : FieldRule) : String := r.destination.getD r.source

/-- Modelled from the spec: the closed set of supported formats applied to a
field value (lowercase / uppercase / trim on strings); a format that cannot
apply to the value's type leaves the value unmodified (per-event error
surfaced out of band). -/
def applyFormat (formatName : Option String) (v : BValue) : BValue :=
  match formatName, v with
  | some "lowercase", .str s => .str s.toLower
  | some "uppercase", .str s => .str s.toUpper
  | some "trim", .str s => .str s.trim
  | _, v2 => v2

/-- First rule whose `source` names the given field, if any. -/
def findRule (rules : List FieldRule) (field : String) : Option FieldRule :=
  rules.find? (fun r => r.source == field)

/-- Modelled from the spec: the field mapper's action on a `data` map. For
each input field in order: a mapped field appears under its destination name
with its format applied; an unmapped field is kept under its original name
when `includeAll` is true and dropped otherwise. -/
def applyRules (rules : List FieldRule) (includeAll : Bool) (data : BDoc) : BDoc :=
  data.filterMap (fun kv =>
    match findRule rules kv.1 with
    | some r => some (destName r, applyFormat r.format kv.2)
    | none => if includeAll then some kv else none)

/-- Modelled from the spec: the field mapper on an Event — only `Data` is
mapped; id, operation and provenance pass through unchanged. -/
def fieldMapperApply (rules : List FieldRule) (includeAll : Bool) (e : Event) : Event :=
  { e with Data := e.Data.map (applyRules rules includeAll) }

/-- Modelled from the spec: the pass-through transformer is the identity. -/
def passThrough (e : Event) : Event := e

/-! ### Batching upsert sink. pkg/sink is not under src/; modelled from the
spec (§4.3): on flush the batch is partitioned, preserving order, into the
upsert group {insert, update, replace} and the delete group {delete}; the
upsert group is applied first (existing row: overwrite the columns present
in `data`, leaving absent fields untouched; absent row: insert `data` plus
the id), then the delete group is applied by id. -/

/-- A target-store row: column name to value. -/
abbrev Row := BDoc

/-- The target store: entity id to row. -/
abbrev Store := List (String × Row)

/-- Update the row stored under `id` (all bindings of `id`) in place. -/
def storeMapRow : Store → String → (Row → Row) → Store
  | [], _, _ => []
  | (k0, r0) :: rest, id, f =>
    if k0 = id then (k0, f r0) :: storeMapRow rest id f
    else (k0, r0) :: storeMapRow rest id f

/-- Modelled from the spec: upsert one event by its id — overwrite the
columns present in `Data` when a row with that id exists, else insert a new
row holding `Data` plus the id (under the `_id` column, as in the README's
target schema). A nil `Data` contributes no columns. -/
def applyUpsert (s : Store) (e : Event) : Store :=
  match assocGet s e.ID with
  | some _ => storeMapRow s e.ID (fun row => mergeRow row (e.Data.getD []))
  | none => s ++ [(e.ID, mergeRow [("_id", BValue.str e.ID)] (e.Data.getD []))]

/-- The upsert group applied in batch order. -/
def applyUpserts : Store → List Event → Store
  | s, [] => s
  | s, e :: rest => applyUpserts (applyUpsert s e) rest

/-- Modelled from the spec: delete by id — remove the row(s) stored under
`id` from the target. -/
def applyDelete : Store → String → Store
  | [], _ => []
  | p :: rest, id => if p.1 = id then applyDelete rest id else p :: applyDelete rest id

/-- The delete group applied in batch order. -/
def applyDeletes : Store → List Event → Store
  | s, [] => s
  | s, e :: rest => applyDeletes (applyDelete s e.ID) rest

/-- Operations forming the upsert group. -/
def isUpsertOp (op : String) : Bool :=
  op == "insert" || op == "update" || op == "replace"

/-- The upsert group of a batch, in arrival order. -/
def upsertGroup (batch : List Event) : List Event :=
  batch.filter (fun e => isUpsertOp e.Operation)

/-- The delete group of a batch, in arrival order. -/
def deleteGroup (batch : List Event) : List Event :=
  batch.filter (fun e => e.Operation == "delete")

/-- Modelled from the spec: flush one batch — apply the upsert group first,
then the delete group by id. -/
def flushBatch (s : Store) (batch : List Event) : Store :=
  applyDeletes (applyUpserts s (upsertGroup batch)) (deleteGroup batch)

/-- Value of column `field` of the row stored under `id`, if any. -/
def storeGet (s : Store) (id field : String) : Option BValue :=
  match assocGet s id with
  | some row => assocGet row field
  | none => none

/-! ### Pipeline orchestrator. pkg/pipeline/pipeline.go is not under src/;
modelled from the spec (§4.1): Run connects the Source adapter and the Sink
adapter on entry; either failing is fatal and aborts the run before any
events flow. -/

/-- Actions Run performs on its adapters, in order. -/
inductive RunAction where
  | connectSource
  | connectSink
  | streamRead
  | applyEvents
  | closeSink
  | closeSource
  deriving DecidableEq

/-- Terminal states of Run relevant to connection handling. -/
inductive RunResult where
  | fatalConnect
  | completed
  deriving DecidableEq

/-- Whether each adapter's Connect succeeds in a given run. -/
structure AdapterRun where
  srcConnectOk : Bool
  sinkConnectOk : Bool

/-- Modelled from the spec: Run's action trace and result as a function of
the adapters' Connect outcomes — connect source, then sink; a failure of
either returns the fatal connect error immediately, before the source is
read or any event is applied. -/
def runModel (b : AdapterRun) : List RunAction × RunResult :=
  if b.srcConnectOk = false then
    ([.connectSource], .fatalConnect)
  else if b.sinkConnectOk = false then
    ([.connectSource, .connectSink], .fatalConnect)
  else
    ([.connectSource, .connectSink, .streamRead, .applyEvents, .closeSink, .closeSource],
      .completed)

/-! ### Configuration. pkg/config/config.go. -/

/-- A decoded JSON settings value (`interface{}` after encoding/json). -/
inductive SettingVal where
  | str (s : String)
  | num (n : Int)
  | bool (b : Bool)
  | null
  deriving DecidableEq

/-- pkg/config/config.go SourceConfig: adapter type plus opaque settings map. -/
structure SourceConfig where
  type : String
  Settings : List (String × SettingVal)

/-- pkg/config/config.go SinkConfig: adapter type plus opaque settings map. -/
structure SinkConfig where
  type : String
  Settings : List (String × SettingVal)

/-- pkg/config/config.go SourceConfig.GetString: the stored value when the
key holds a string (`settings[key].(string)` succeeds), `""` otherwise. -/
def SourceConfig.GetString (s : SourceConfig) (key : String) : String :=
  match assocGet s.Settings key with
  | some (.str v) => v
  | _ => ""

/-- pkg/config/config.go SinkConfig.GetString: the stored value when the
key holds a string, `""` otherwise. -/
def SinkConfig.GetString (s : SinkConfig) (key : String) : String :=
  match assocGet s.Settings key with
  | some (.str v) => v
  | _ => ""

/-! ### Concrete change documents and events used by the claim theorems. -/

/-- A MongoDBSource configured as in the README example. -/
def m0 : MongoDBSource :=
  { uri := "mongodb://localhost:27017", database := "mydb", collection := "users" }

/-- A change-stream resume token, as it sits in the top-level `_id` field of
every change document. -/
def resumeToken : BValue := .doc [("_data", .str "826A")]

/-- An update change document: resume token at `_id`, the entity key `"42"`
at `documentKey._id`. -/
def docC1 : BDoc :=
  [("_id", resumeToken),
   ("operationType", .str "update"),
   ("documentKey", .doc [("_id", .str "42")]),
   ("fullDocument", .doc [("_id", .str "42"), ("name", .str "Ann")]),
   ("updateDescription", .doc [("updatedFields", .doc [("name", .str "Ann")])])]

/-- A change document whose operation type is outside
{insert, update, replace, delete}. -/
def docDrop : BDoc :=
  [("_id", resumeToken), ("operationType", .str "drop")]

/-- An update change document carrying no fullDocument and an empty
updatedFields (an update that only removes fields, with the post-image
unavailable). -/
def docC9 : BDoc :=
  [("_id", resumeToken),
   ("operationType", .str "update"),
   ("documentKey", .doc [("_id", .str "7")]),
   ("updateDescription",
     .doc [("updatedFields", .doc []), ("removedFields", .arr [.str "x"])])]

/-- Insert event for id "42" with data {x: 1}. -/
def evIns : Event :=
  { ID := "42", Operation := "insert", Source := "mongodb", Database := "mydb",
    Collection := "users", Data := some [("x", .int 1)], Timestamp := 0 }

/-- Update event for id "42" with data {y: 2}. -/
def evUpd : Event :=
  { ID := "42", Operation := "update", Source := "mongodb", Database := "mydb",
    Collection := "users", Data := some [("y", .int 2)], Timestamp := 0 }

/-- Delete event for id "42". -/
def evDel : Event :=
  { ID := "42", Operation := "delete", Source := "mongodb", Database := "mydb",
    Collection := "users", Data := none, Timestamp := 0 }

/-! ## Helper lemmas -/

theorem assocGet_rowSet {α : Type} (r : List (String × α)) (k key : String) (v : α) :
    assocGet (rowSet r k v) key = if key = k then some v else assocGet r key := by
  induction r with
  | nil =>
    simp only [rowSet, assocGet]
    by_cases h : key = k
    · subst h; simp
    · simp [h, Ne.symm h]
  | cons p rest ih =>
    obtain ⟨k0, v0⟩ := p
    simp only [rowSet]
    by_cases h0 : k0 = k
    · subst h0
      simp only [if_pos rfl, assocGet]
      by_cases h : key = k0
      · subst h; simp
      · simp [h, Ne.symm h]
    · simp only [if_neg h0, assocGet, ih]
      by_cases h1 : k0 = key
      · subst h1
        simp [h0, Ne.symm h0]
      · simp [h1]

theorem assocGet_mergeRow {α : Type} (d r : List (String × α)) (key : String) :
    assocGet (mergeRow r d) key =
      match lastGet d key with
      | some v => some v
      | none => assocGet r key := by
  induction d generalizing r with
  | nil => simp [mergeRow, lastGet]
  | cons p rest ih =>
    obtain ⟨k0, v0⟩ := p
    simp only [mergeRow, lastGet, ih, assocGet_rowSet]
    cases hl : lastGet rest key with
    | some v => simp
    | none =>
      by_cases h : key = k0
      · simp [h]
      · simp [h]

theorem mergeRow_idem_get {α : Type} (r d : List (String × α)) (key : String) :
    assocGet (mergeRow (mergeRow r d) d) key = assocGet (mergeRow r d) key := by
  rw [assocGet_mergeRow, assocGet_mergeRow]
  cases hl : lastGet d key with
  | some v => simp
  | none => simp

theorem assocGet_storeMapRow (s : Store) (id key : String) (f : Row → Row) :
    assocGet (storeMapRow s id f) key =
      if key = id then (assocGet s key).map f else assocGet s key := by
  induction s with
  | nil => simp [storeMapRow, assocGet]
  | cons p rest ih =>
    obtain ⟨k0, r0⟩ := p
    simp only [storeMapRow]
    by_cases h0 : k0 = id
    · subst h0
      rw [if_pos rfl]
      by_cases h : k0 = key
      · subst h
        simp [assocGet]
      · simp [assocGet, h, ih]
    · rw [if_neg h0]
      by_cases h : k0 = key
      · subst h
        simp [assocGet, h0, Ne.symm h0]
      · simp [assocGet, h, ih]

theorem assocGet_append {α : Type} (s t : List (String × α)) (key : String) :
    assocGet (s ++ t) key =
      match assocGet s key with
      | some v => some v
      | none => assocGet t key := by
  induction s with
  | nil => simp [assocGet]
  | cons p rest ih =>
    obtain ⟨k0, v0⟩ := p
    simp only [List.cons_append, assocGet]
    by_cases h : k0 = key
    · simp [h]
    · simp [h, ih]

theorem rowSet_ne_nil {α : Type} (r : List (String × α)) (k : String) (v : α) :
    rowSet r k v ≠ [] := by
  cases r with
  | nil => simp [rowSet]
  | cons p rest =>
    obtain ⟨k0, v0⟩ := p
    simp only [rowSet]
    by_cases h : k0 = k <;> simp [h]

theorem mergeRow_ne_nil_left {α : Type} (d r : List (String × α)) (h : r ≠ []) :
    mergeRow r d ≠ [] := by
  induction d generalizing r with
  | nil => simpa [mergeRow] using h
  | cons p rest ih =>
    obtain ⟨k0, v0⟩ := p
    simpa only [mergeRow] using ih (rowSet r k0 v0) (rowSet_ne_nil r k0 v0)

theorem mergeRow_ne_nil_right {α : Type} (r d : List (String × α)) (h : d ≠ []) :
    mergeRow r d ≠ [] := by
  cases d with
  | nil => exact absurd rfl h
  | cons p rest =>
    obtain ⟨k0, v0⟩ := p
    simpa only [mergeRow] using
      mergeRow_ne_nil_left rest (rowSet r k0 v0) (rowSet_ne_nil r k0 v0)

theorem convertBSONToMap_ne_nil (d : BDoc) (h : d ≠ []) : convertBSONToMap d ≠ [] :=
  mergeRow_ne_nil_right [] d h

theorem assocGet_applyDelete_self (s : Store) (id : String) :
    assocGet (applyDelete s id) id = none := by
  induction s with
  | nil => simp [applyDelete, assocGet]
  | cons p rest ih =>
    obtain ⟨k0, r0⟩ := p
    simp only [applyDelete]
    by_cases h : k0 = id
    · simp [h, ih]
    · simp [h, assocGet, ih]

theorem assocGet_applyDelete_none (s : Store) (id id2 : String)
    (h : assocGet s id = none) : assocGet (applyDelete s id2) id = none := by
  induction s with
  | nil => simp [applyDelete, assocGet]
  | cons p rest ih =>
    obtain ⟨k0, r0⟩ := p
    simp only [assocGet] at h
    by_cases hk : k0 = id
    · simp [hk] at h
    · simp only [if_neg hk] at h
      simp only [applyDelete]
      by_cases h2 : k0 = id2
      · simp [h2, ih h]
      · simp [h2, assocGet, hk, ih h]

theorem assocGet_applyDeletes_none (dels : List Event) (s : Store) (id : String)
    (h : assocGet s id = none) : assocGet (applyDeletes s dels) id = none := by
  induction dels generalizing s with
  | nil => simpa [applyDeletes] using h
  | cons e rest ih =>
    simp only [applyDeletes]
    exact ih _ (assocGet_applyDelete_none s id e.ID h)

theorem assocGet_applyDeletes_mem (dels : List Event) (s : Store) (id : String)
    (h : ∃ e ∈ dels, e.ID = id) : assocGet (applyDeletes s dels) id = none := by
  induction dels generalizing s with
  | nil => simp at h
  | cons e rest ih =>
    simp only [applyDeletes]
    obtain ⟨e2, hmem, hid⟩ := h
    rcases List.mem_cons.mp hmem with h1 | h1
    · subst h1
      refine assocGet_applyDeletes_none rest _ id ?_
      rw [← hid]
      exact assocGet_applyDelete_self s e2.ID
    · exact ih _ ⟨e2, h1, hid⟩

/-! ## Claim theorems -/

/-- C1: the claim says the Event's `ID` is the stringified primary key of the
mutated entity. The code stringifies the change document's top-level `_id`,
which is the change stream's resume token, not the entity key held at
`documentKey._id`: on the concrete update document `docC1` the entity key is
`"42"` but the produced `ID` is the formatted resume token `"map[_data:826A]"`. -/
theorem mongodb_event_id_is_resume_token :
    (convertChangeEvent m0 0 docC1).ID = "map[_data:826A]"
    ∧ entityKey docC1 = some (BValue.str "42")
    ∧ (convertChangeEvent m0 0 docC1).ID ≠ goFormat (BValue.str "42") :=
  ⟨rfl, rfl, by decide⟩

/-- C2 counterexample: a change document with operation type `"drop"` (outside
{insert, update, replace, delete}) is not a hard data error — conversion
succeeds with `Operation = "drop"` and Read forwards the event into the
pipeline. -/
theorem mongodb_unrecognized_op_forwarded :
    (convertChangeEvent m0 0 docDrop).Operation = "drop"
    ∧ ¬ ((convertChangeEvent m0 0 docDrop).Operation = "insert"
        ∨ (convertChangeEvent m0 0 docDrop).Operation = "update"
        ∨ (convertChangeEvent m0 0 docDrop).Operation = "replace"
        ∨ (convertChangeEvent m0 0 docDrop).Operation = "delete")
    ∧ readTrace m0 0 (.run [.doc docDrop] false)
        = [.sendEvent (convertChangeEvent m0 0 docDrop), .closeErrors, .closeEvents] :=
  ⟨rfl, by decide, rfl⟩

/-- C2 amended: conversion never fails; whenever the change document's
`operationType` is a string it is copied verbatim into the Event's
`Operation` — unrecognized values included — and Read forwards the converted
event into the pipeline (here: a one-iteration stream run). -/
theorem mongodb_convert_op_verbatim (m : MongoDBSource) (now : Nat) (doc : BDoc)
    (s : String) (h : assocGet doc "operationType" = some (BValue.str s)) :
    (convertChangeEvent m now doc).Operation = s
    ∧ readTrace m now (.run [.doc doc] false)
        = [.sendEvent (convertChangeEvent m now doc), .closeErrors, .closeEvents] := by
  constructor
  · simp [convertChangeEvent, h]
  · simp [readTrace, readBody, stepOp]

/-- C2 amended, witness at the `"drop"` document. -/
theorem mongodb_convert_op_verbatim_witness :
    (convertChangeEvent m0 0 docDrop).Operation = "drop"
    ∧ readTrace m0 0 (.run [.doc docDrop] false)
        = [.sendEvent (convertChangeEvent m0 0 docDrop), .closeErrors, .closeEvents] :=
  mongodb_convert_op_verbatim m0 0 docDrop "drop" rfl

/-- C8: Close is claimed idempotent, but the code never clears `m.client`
after a successful Disconnect; a second Close on a previously connected
source calls Disconnect again, which the driver rejects, so the second
result differs from the first. (On a never-connected source, Close is
idempotent: both calls return nil.) -/
theorem mongodb_close_second_call_errors :
    (mongoClose ClientState.connected).1 = none
    ∧ (mongoClose (mongoClose ClientState.connected).2).1 = some "client is disconnected"
    ∧ (mongoClose (mongoClose ClientState.connected).2).1 ≠ (mongoClose ClientState.connected).1
    ∧ (mongoClose ClientState.noClient).1 = none
    ∧ (mongoClose (mongoClose ClientState.noClient).2).1 = (mongoClose ClientState.noClient).1 := by
  decide

/-- C10: GetString is total on both SourceConfig and SinkConfig — it returns
the stored value when the key holds a string, and the empty string (without
failing) when the key is absent or holds a non-string value. -/
theorem config_GetString_total :
    (∀ (c : SourceConfig) (key v : String),
        assocGet c.Settings key = some (SettingVal.str v) → c.GetString key = v)
    ∧ (∀ (c : SourceConfig) (key : String),
        assocGet c.Settings key = none → c.GetString key = "")
    ∧ (∀ (c : SourceConfig) (key : String) (w : SettingVal),
        assocGet c.Settings key = some w → (∀ v, w ≠ SettingVal.str v) →
          c.GetString key = "")
    ∧ (∀ (c : SinkConfig) (key v : String),
        assocGet c.Settings key = some (SettingVal.str v) → c.GetString key = v)
    ∧ (∀ (c : SinkConfig) (key : String),
        assocGet c.Settings key = none → c.GetString key = "")
    ∧ (∀ (c : SinkConfig) (key : String) (w : SettingVal),
        assocGet c.Settings key = some w → (∀ v, w ≠ SettingVal.str v) →
          c.GetString key = "") := by
  refine ⟨?_, ?_, ?_, ?_, ?_, ?_⟩
  · intro c key v h
    simp [SourceConfig.GetString, h]
  · intro c key h
    simp [SourceConfig.GetString, h]
  · intro c key w h hw
    cases w with
    | str s => exact absurd rfl (hw s)
    | num n => simp [SourceConfig.GetString, h]
    | bool b => simp [SourceConfig.GetString, h]
    | null => simp [SourceConfig.GetString, h]
  · intro c key v h2
    simp [SinkConfig.GetString, h2]
  · intro c key h
    simp [SinkConfig.GetString, h]
  · intro c key w h hw
    cases w with
    | str s => exact absurd rfl (hw s)
    | num n => simp [SinkConfig.GetString, h]
    | bool b => simp [SinkConfig.GetString, h]
    | null => simp [SinkConfig.GetString, h]

/-- Source settings as in the README example, plus a non-string entry. -/
def cfg0 : SourceConfig :=
  ⟨"mongodb", [("uri", .str "mongodb://localhost:27017"), ("port", .num 27017)]⟩

/-- Sink settings as in the README example. -/
def scfg0 : SinkConfig := ⟨"postgresql", [("table", .str "users")]⟩

/-- C10 witness: present string key, absent key, and present non-string key. -/
theorem config_GetString_total_witness :
    SourceConfig.GetString cfg0 "uri" = "mongodb://localhost:27017"
    ∧ SourceConfig.GetString cfg0 "missing" = ""
    ∧ SourceConfig.GetString cfg0 "port" = ""
    ∧ SinkConfig.GetString scfg0 "table" = "users" :=
  ⟨config_GetString_total.1 cfg0 "uri" _ rfl,
   config_GetString_total.2.1 cfg0 "missing" rfl,
   config_GetString_total.2.2.1 cfg0 "port" (SettingVal.num 27017) rfl
     (fun _ h => SettingVal.noConfusion h),
   config_GetString_total.2.2.2.1 scfg0 "table" _ rfl⟩

theorem assocGet_applyUpsert_other (s : Store) (e : Event) (id2 : String)
    (h : id2 ≠ e.ID) : assocGet (applyUpsert s e) id2 = assocGet s id2 := by
  cases h1 : assocGet s e.ID with
  | some row =>
    simp [applyUpsert, h1, assocGet_storeMapRow, h]
  | none =>
    rw [applyUpsert, h1]
    rw [assocGet_append]
    cases h2 : assocGet s id2 with
    | some v => simp
    | none => simp [assocGet, Ne.symm h]

theorem assocGet_applyUpsert_self (s : Store) (e : Event) :
    ∃ base, assocGet (applyUpsert s e) e.ID = some (mergeRow base (e.Data.getD [])) := by
  cases h1 : assocGet s e.ID with
  | some row =>
    refine ⟨row, ?_⟩
    simp [applyUpsert, h1, assocGet_storeMapRow]
  | none =>
    refine ⟨[("_id", BValue.str e.ID)], ?_⟩
    rw [applyUpsert, h1]
    rw [assocGet_append, h1]
    simp [assocGet]

/-- C3: on flush the batch is partitioned, in arrival order, into the upsert
group and the delete group (each a sublist of the batch — no reordering), and
the delete group is applied by id after the upsert group; hence any id with
an upsert followed later in the batch by a delete is absent from the target
after the flush. -/
theorem sink_flush_delete_after_upserts (s : Store) (batch : List Event) (id : String)
    (h : ∃ e1 e2, List.Sublist [e1, e2] batch ∧ isUpsertOp e1.Operation = true
        ∧ e1.ID = id ∧ e2.Operation = "delete" ∧ e2.ID = id) :
    List.Sublist (upsertGroup batch) batch
    ∧ List.Sublist (deleteGroup batch) batch
    ∧ assocGet (flushBatch s batch) id = none := by
  obtain ⟨e1, e2, hsub, hup, hid1, hop2, hid2⟩ := h
  refine ⟨List.filter_sublist batch, List.filter_sublist batch, ?_⟩
  have hmem : e2 ∈ batch := hsub.subset (by simp)
  have hdel : e2 ∈ deleteGroup batch := by
    simp [deleteGroup, List.mem_filter, hmem, hop2]
  exact assocGet_applyDeletes_mem _ _ _ ⟨e2, hdel, hid2⟩

/-- C3 witness: the spec scenario — batch
[insert {x:1}, update {y:2}, delete] for id "42" leaves row "42" absent. -/
theorem sink_flush_delete_after_upserts_witness :
    assocGet (flushBatch [] [evIns, evUpd, evDel]) "42" = none :=
  (sink_flush_delete_after_upserts [] [evIns, evUpd, evDel] "42"
    ⟨evIns, evDel,
      List.Sublist.cons₂ evIns (List.Sublist.cons evUpd (List.Sublist.refl [evDel])),
      rfl, rfl, rfl, rfl⟩).2.2

/-- C4: the upsert is idempotent — applying an {insert, update, replace}
event twice with identical data leaves every column of every row in the same
state as applying it once. -/
theorem sink_upsert_idempotent (s : Store) (e : Event)
    (_hop : isUpsertOp e.Operation = true) (id2 field : String) :
    storeGet (applyUpsert (applyUpsert s e) e) id2 field
      = storeGet (applyUpsert s e) id2 field := by
  by_cases hid : id2 = e.ID
  · subst hid
    obtain ⟨base, hbase⟩ := assocGet_applyUpsert_self s e
    have hs2 : applyUpsert (applyUpsert s e) e
        = storeMapRow (applyUpsert s e) e.ID (fun row => mergeRow row (e.Data.getD [])) := by
      rw [applyUpsert, hbase]
    rw [storeGet, storeGet, hs2, assocGet_storeMapRow, if_pos rfl, hbase]
    simp [mergeRow_idem_get]
  · rw [storeGet, storeGet, assocGet_applyUpsert_other (applyUpsert s e) e id2 hid]

/-- C4 witness: the insert event for id "42" applied twice to the empty
store agrees with applying it once on row "42", column "x". -/
theorem sink_upsert_idempotent_witness :
    isUpsertOp evIns.Operation = true
    ∧ storeGet (applyUpsert (applyUpsert [] evIns) evIns) "42" "x"
        = storeGet (applyUpsert [] evIns) "42" "x" :=
  ⟨rfl, sink_upsert_idempotent [] evIns rfl "42" "x"⟩

/-- C5: with include_all=false every output entry originates from a mapped
field (unmapped fields are dropped); mapped fields always appear under their
destination name with their format applied; with include_all=true unmapped
fields are preserved under their original names; and the spec's concrete
scenario holds. -/
theorem fieldmapper_include_all_semantics :
    (∀ (rules : List FieldRule) (data : BDoc) (p : String × BValue),
        p ∈ applyRules rules false data →
          ∃ k v r, (k, v) ∈ data ∧ findRule rules k = some r
            ∧ p = (destName r, applyFormat r.format v))
    ∧ (∀ (rules : List FieldRule) (includeAll : Bool) (data : BDoc)
          (k : String) (v : BValue) (r : FieldRule),
        (k, v) ∈ data → findRule rules k = some r →
          (destName r, applyFormat r.format v) ∈ applyRules rules includeAll data)
    ∧ (∀ (rules : List FieldRule) (data : BDoc) (k : String) (v : BValue),
        (k, v) ∈ data → findRule rules k = none →
          (k, v) ∈ applyRules rules true data)
    ∧ applyRules [⟨"firstName", some "first_name", none⟩] false
        [("firstName", .str "Ann"), ("age", .int 30)]
        = [("first_name", .str "Ann")] := by
  refine ⟨?_, ?_, ?_, rfl⟩
  · intro rules data p hp
    simp only [applyRules] at hp
    obtain ⟨a, ha, hf⟩ := List.mem_filterMap.mp hp
    obtain ⟨k, v⟩ := a
    cases hr : findRule rules k with
    | some r =>
      refine ⟨k, v, r, ha, hr, ?_⟩
      simp only [hr] at hf
      exact (Option.some.inj hf).symm
    | none =>
      simp [hr] at hf
  · intro rules includeAll data k v r hmem hr
    simp only [applyRules]
    refine List.mem_filterMap.mpr ⟨(k, v), hmem, ?_⟩
    simp [hr]
  · intro rules data k v hmem hr
    simp only [applyRules]
    refine List.mem_filterMap.mpr ⟨(k, v), hmem, ?_⟩
    simp [hr]

/-- C5 witness: in the spec scenario the mapped field appears under its
destination name. -/
theorem fieldmapper_include_all_semantics_witness :
    ("first_name", BValue.str "Ann")
      ∈ applyRules [⟨"firstName", some "first_name", none⟩] false
          [("firstName", BValue.str "Ann"), ("age", BValue.int 30)] :=
  fieldmapper_include_all_semantics.2.1 _ false _ "firstName" (BValue.str "Ann")
    ⟨"firstName", some "first_name", none⟩ (by simp) rfl

/-- C6: if either adapter's Connect fails, Run returns the fatal connect
error and the source is never asked to stream. -/
theorem run_connect_failure_aborts (b : AdapterRun)
    (h : b.srcConnectOk = false ∨ b.sinkConnectOk = false) :
    (runModel b).2 = RunResult.fatalConnect
    ∧ RunAction.streamRead ∉ (runModel b).1 := by
  obtain ⟨so, ko⟩ := b
  rcases h with h | h <;> subst h
  · cases ko <;> decide
  · cases so <;> decide

/-- C6 witness: source connects, sink's Connect fails. -/
theorem run_connect_failure_aborts_witness :
    ((AdapterRun.mk true false).srcConnectOk = false
        ∨ (AdapterRun.mk true false).sinkConnectOk = false)
    ∧ ((runModel (AdapterRun.mk true false)).2 = RunResult.fatalConnect
        ∧ RunAction.streamRead ∉ (runModel (AdapterRun.mk true false)).1) :=
  ⟨Or.inr rfl, run_connect_failure_aborts (AdapterRun.mk true false) (Or.inr rfl)⟩

/-- C7: for every stream outcome, the Read trace is a run of deliveries
followed by the two channel closes together at the very end — neither
channel closes while the other can still deliver a value. -/
theorem mongodb_read_channels_close_together (m : MongoDBSource) (now : Nat)
    (o : StreamOutcome) : closesTogether (readTrace m now o) := by
  refine ⟨readBody m now o, rfl, ?_⟩
  intro op hop
  cases o with
  | watchFail =>
    simp only [readBody, List.mem_singleton] at hop
    subst hop
    rfl
  | run steps finalErr =>
    simp only [readBody] at hop
    rcases List.mem_append.mp hop with h1 | h1
    · obtain ⟨st, hst, hq⟩ := List.mem_map.mp h1
      subst hq
      cases st <;> rfl
    · cases finalErr with
      | false => simp at h1
      | true =>
        simp only [if_pos, List.mem_singleton] at h1
        subst h1
        rfl

/-- C9 counterexample: an update change document with no fullDocument and an
empty updatedFields produces a non-delete Event with empty data straight
from the source; the pass-through transform forwards it to the sink
unchanged, so the transform stage did not produce the empty payload. -/
theorem mongodb_nondelete_empty_data :
    (convertChangeEvent m0 0 docC9).Operation = "update"
    ∧ (convertChangeEvent m0 0 docC9).Operation ≠ "delete"
    ∧ (passThrough (convertChangeEvent m0 0 docC9)).Data = some [] :=
  ⟨rfl, by decide, rfl⟩

/-- C9 amended: a converted Event's data is non-empty whenever its change
document carried a non-empty fullDocument, or a non-empty updatedFields
under updateDescription; conversion alone guarantees nothing more. -/
theorem mongodb_nondelete_data_nonempty (m : MongoDBSource) (now : Nat) (doc : BDoc) :
    (∀ fd, assocGet doc "fullDocument" = some (BValue.doc fd) → fd ≠ [] →
        ∃ l, (convertChangeEvent m now doc).Data = some l ∧ l ≠ [])
    ∧ (∀ ud uf, assocGet doc "updateDescription" = some (BValue.doc ud) →
        assocGet ud "updatedFields" = some (BValue.doc uf) → uf ≠ [] →
          ∃ l, (convertChangeEvent m now doc).Data = some l ∧ l ≠ []) := by
  have hdata : (convertChangeEvent m now doc).Data = dataOf doc := rfl
  constructor
  · intro fd hfd hne
    have hb : convertBSONToMap fd ≠ [] := convertBSONToMap_ne_nil fd hne
    rw [hdata]
    cases h2 : assocGet doc "updateDescription" with
    | none =>
      simp only [dataOf, hfd, h2]
      exact ⟨_, rfl, hb⟩
    | some v =>
      cases v with
      | doc ud =>
        cases h3 : assocGet ud "updatedFields" with
        | none =>
          simp only [dataOf, hfd, h2, h3]
          exact ⟨_, rfl, hb⟩
        | some w =>
          cases w with
          | doc uf2 =>
            simp only [dataOf, hfd, h2, h3]
            exact ⟨_, rfl, mergeRow_ne_nil_left _ _ hb⟩
          | str s2 =>
            simp only [dataOf, hfd, h2, h3]
            exact ⟨_, rfl, hb⟩
          | int n2 =>
            simp only [dataOf, hfd, h2, h3]
            exact ⟨_, rfl, hb⟩
          | bool b2 =>
            simp only [dataOf, hfd, h2, h3]
            exact ⟨_, rfl, hb⟩
          | null =>
            simp only [dataOf, hfd, h2, h3]
            exact ⟨_, rfl, hb⟩
          | arr a2 =>
            simp only [dataOf, hfd, h2, h3]
            exact ⟨_, rfl, hb⟩
      | str s2 =>
        simp only [dataOf, hfd, h2]
        exact ⟨_, rfl, hb⟩
      | int n2 =>
        simp only [dataOf, hfd, h2]
        exact ⟨_, rfl, hb⟩
      | bool b2 =>
        simp only [dataOf, hfd, h2]
        exact ⟨_, rfl, hb⟩
      | null =>
        simp only [dataOf, hfd, h2]
        exact ⟨_, rfl, hb⟩
      | arr a2 =>
        simp only [dataOf, hfd, h2]
        exact ⟨_, rfl, hb⟩
  · intro ud uf h2 h3 hne
    have hb : convertBSONToMap uf ≠ [] := convertBSONToMap_ne_nil uf hne
    rw [hdata]
    simp only [dataOf, h2, h3]
    exact ⟨_, rfl, mergeRow_ne_nil_right _ _ hb⟩

/-- C9 amended, witness: the update document with a two-field fullDocument
yields an Event with non-empty data. -/
theorem mongodb_nondelete_data_nonempty_witness :
    ∃ l, (convertChangeEvent m0 0 docC1).Data = some l ∧ l ≠ [] :=
  (mongodb_nondelete_data_nonempty m0 0 docC1).1
    [("_id", BValue.str "42"), ("name", BValue.str "Ann")] rfl (by simp)

end DataPipe
